import Mathlib

/-!
# Verification of the Zettlr `DocumentManager` specification

This file gives a shallow embedding of `DocumentManager`
(`src/source/app/service-providers/documents/index.ts`) and of the
collaborator modules it relies on (`DocumentAuthoritySingleton`,
`DocumentTree`, `TabManager`), and proves or refutes the frozen claims
about it.  The collaborator modules are not part of the provided sources;
their definitions below are modelled from the specification document and
are marked as such in their doc comments.  Everything else is translated
directly from `index.ts`.
-/

set_option maxHeartbeats 1000000

/-- Modelled from the spec (glossary, "Incremental update"): a minimal
description of a text change, insert/delete ranges.  The renderer ships
these as CodeMirror updates; only their effect on the canonical text
matters here. -/
inductive TextOp where
  | insert (pos : Nat) (text : String)
  | delete (pos len : Nat)
deriving DecidableEq, Repr

/-- Modelled from the spec: one incremental update as stored in the
replay backlog (a batch of text operations). -/
structure Update where
  ops : List TextOp
deriving DecidableEq, Repr

/-- Apply a single text operation to the canonical text. -/
def applyOp (s : String) (op : TextOp) : String :=
  match op with
  | .insert pos t => ⟨s.data.take pos ++ t.data ++ s.data.drop pos⟩
  | .delete pos len => ⟨s.data.take pos ++ s.data.drop (pos + len)⟩

/-- Apply one incremental update (all of its operations, in order). -/
def applyUpdate (s : String) (u : Update) : String :=
  u.ops.foldl applyOp s

/-- An authority-owned open document (the entries of the
`DocumentAuthoritySingleton`'s `documents` array, referenced throughout
`index.ts` as `this.documents`): absolute path, canonical text, version
counters, replay backlog, pending save-timer handle. -/
structure Document where
  filePath : String
  text : String
  currentVersion : Nat
  lastSavedVersion : Nat
  backlog : List Update
  saveTimeout : Bool
deriving DecidableEq, Repr

/-- Result of `pushUpdates`. -/
inductive PushResult where
  | ok (newVersion : Nat)
  | staleBase
deriving DecidableEq, Repr

/-- Modelled from the spec (§4.3, `DocumentAuthoritySingleton.pushUpdates`
is not among the provided sources): accepted only if
`baseVersion == currentVersion`; on acceptance applies the updates to the
canonical text in order, increments `currentVersion` by the number of
updates applied, stores them in the replay backlog and returns the new
version; otherwise fails with `StaleBase` and leaves the document
untouched. -/
def pushUpdates (doc : Document) (baseVersion : Nat) (updates : List Update) :
    PushResult × Document :=
  if baseVersion ≠ doc.currentVersion then
    (.staleBase, doc)
  else
    (.ok (doc.currentVersion + updates.length),
     { doc with
        text := updates.foldl applyUpdate doc.text
        currentVersion := doc.currentVersion + updates.length
        backlog := doc.backlog ++ updates })

/-- Tab entries held by a `TabManager` (`OpenDocument` in
`@dts/common/documents`): a path plus its pinned flag. -/
structure OpenDoc where
  path : String
  pinned : Bool
deriving DecidableEq, Repr

/-- Modelled from the spec (§3, §4.2; the `document-tree/tab-manager`
module is not among the provided sources): ordered tab list, active-file
pointer, pinned flags, navigation history. -/
structure TabManager where
  openFiles : List OpenDoc
  active : Option String
  history : List String
deriving DecidableEq, Repr

namespace TabManager

/-- Modelled from the spec (§4.2 `openFile`): if the path is already
present it only becomes active ("no-op open"); otherwise it is appended
to the end of the order, made active, and the previously active path is
pushed onto the back-history. -/
def openFile (tm : TabManager) (p : String) : Bool × TabManager :=
  if tm.openFiles.any (fun e => e.path = p) then
    (false, { tm with active := some p })
  else
    (true,
     { tm with
        openFiles := tm.openFiles ++ [⟨p, false⟩]
        history := match tm.active with
          | some a => tm.history ++ [a]
          | none => tm.history
        active := some p })

/-- Outcome of scanning the tab list for a path to close. -/
inductive CloseScan where
  | notFound
  | pinnedTab
  | removed (rest : List OpenDoc) (neighbor : Option String)
deriving DecidableEq, Repr

/-- Scan for the first tab with the given path.  A pinned tab refuses to
close (spec §4.2/§4.4: pinned tabs are never auto-closed, and
`closeFileEverywhere` in `index.ts` has to clear the pinned status first
"to ensure files are definitely closed").  On removal the replacement
active path is the right neighbor if any, else the left neighbor. -/
def closeScan : List OpenDoc → String → CloseScan
  | [], _ => .notFound
  | e :: es, p =>
    if e.path = p then
      if e.pinned then .pinnedTab
      else .removed es (es.head?.map (·.path))
    else
      match closeScan es p with
      | .notFound => .notFound
      | .pinnedTab => .pinnedTab
      | .removed rest nb =>
        .removed (e :: rest)
          (match nb with
           | some x => some x
           | none => some e.path)

/-- Modelled from the spec (§4.2 `closeFile`): removes the path from the
order (refusing pinned tabs); if it was active, activates the neighbor
(prefer the tab to its right, else left, else none).  Returns whether a
change occurred. -/
def closeFile (tm : TabManager) (p : String) : Bool × TabManager :=
  match closeScan tm.openFiles p with
  | .notFound => (false, tm)
  | .pinnedTab => (false, tm)
  | .removed rest nb =>
    (true,
     { tm with
        openFiles := rest
        active := if tm.active = some p then nb else tm.active })

/-- Modelled from the spec (§4.2): set the pinned flag of the given path
(no-op when the path is not open in this tab strip). -/
def setPinnedStatus (tm : TabManager) (p : String) (pinned : Bool) : TabManager :=
  { tm with
     openFiles := tm.openFiles.map (fun e => if e.path = p then { e with pinned } else e) }

/-- Modelled from the spec (§4.2 `replaceFilePath`): rename/move
propagation, preserving position, active and pinned status; returns
whether a change occurred. -/
def replaceFilePath (tm : TabManager) (oldPath newPath : String) : Bool × TabManager :=
  if tm.openFiles.any (fun e => e.path = oldPath) then
    (true,
     { tm with
        openFiles := tm.openFiles.map
          (fun e => if e.path = oldPath then { e with path := newPath } else e)
        active := if tm.active = some oldPath then some newPath else tm.active })
  else (false, tm)

end TabManager

/-- Modelled from the spec (§3, §4.1; the `document-tree` module is not
among the provided sources): the layout tree of one window, a tree of
branches and leaves, each leaf owning one `TabManager`.  Branch sizes are
elided: no claim depends on them.  Leaf and branch identifiers are the
uuid4 tokens of the implementation and are assumed pairwise distinct. -/
inductive DTNode where
  | leaf (id : String) (tm : TabManager)
  | branch (id : String) (children : List DTNode)
deriving Repr

/-- A window's document tree: `none` models a tree whose every leaf has
been removed. -/
abbrev DTree := Option DTNode

mutual

/-- `getAllLeafs` of `DocumentTree`: left-to-right list of (leaf id, tab
manager) pairs. -/
def getAllLeafs : DTNode → List (String × TabManager)
  | .leaf id tm => [(id, tm)]
  | .branch _ cs => getAllLeafsList cs

/-- `getAllLeafs` over a branch's children. -/
def getAllLeafsList : List DTNode → List (String × TabManager)
  | [] => []
  | c :: cs => getAllLeafs c ++ getAllLeafsList cs

end

mutual

/-- `findLeaf` of `DocumentTree`: the tab manager of the first leaf with
the given id. -/
def findLeaf : DTNode → String → Option TabManager
  | .leaf id tm, target => if id = target then some tm else none
  | .branch _ cs, target => findLeafList cs target

/-- `findLeaf` over a branch's children. -/
def findLeafList : List DTNode → String → Option TabManager
  | [], _ => none
  | c :: cs, target =>
    match findLeaf c target with
    | some tm => some tm
    | none => findLeafList cs target

end

mutual

/-- Replace the tab manager of the leaf with the given id (leaf ids are
unique, so this touches exactly the one leaf the manager operates on). -/
def updateLeafT : DTNode → String → (TabManager → TabManager) → DTNode
  | .leaf id tm, target, f => if id = target then .leaf id (f tm) else .leaf id tm
  | .branch id cs, target, f => .branch id (updateLeafTList cs target f)

/-- `updateLeafT` over a branch's children. -/
def updateLeafTList : List DTNode → String → (TabManager → TabManager) → List DTNode
  | [], _, _ => []
  | c :: cs, target, f => updateLeafT c target f :: updateLeafTList cs target f

end

mutual

/-- `removeNode` of `DocumentTree` applied to the leaf with the given id
(ids are unique), with the collapse invariant of spec §4.1: a branch with
one remaining child is replaced by that child, a branch with none
disappears. -/
def removeLeafT : DTNode → String → Option DTNode
  | .leaf id tm, target => if id = target then none else some (.leaf id tm)
  | .branch id cs, target =>
    match removeLeafTList cs target with
    | [] => none
    | [c] => some c
    | cs' => some (.branch id cs')

/-- `removeLeafT` over a branch's children. -/
def removeLeafTList : List DTNode → String → List DTNode
  | [], _ => []
  | c :: cs, target =>
    match removeLeafT c target with
    | none => removeLeafTList cs target
    | some c' => c' :: removeLeafTList cs target

end

mutual

/-- Apply a function to every leaf's tab manager (the
"for every leaf of every window" iteration pattern of `index.ts`). -/
def mapLeavesT : DTNode → (TabManager → TabManager) → DTNode
  | .leaf id tm, f => .leaf id (f tm)
  | .branch id cs, f => .branch id (mapLeavesTList cs f)

/-- `mapLeavesT` over a branch's children. -/
def mapLeavesTList : List DTNode → (TabManager → TabManager) → List DTNode
  | [], _ => []
  | c :: cs, f => mapLeavesT c f :: mapLeavesTList cs f

end

/-- Leaves of a possibly-empty tree. -/
def getAllLeafsO : DTree → List (String × TabManager)
  | none => []
  | some t => getAllLeafs t

/-- `findLeaf` on a possibly-empty tree. -/
def findLeafO : DTree → String → Option TabManager
  | none, _ => none
  | some t, target => findLeaf t target

/-- The state of the `DocumentManager` provider: the window map
(`_windows`), the authority's document store (`this.documents`), the
watched path set of the chokidar watcher (`_watcher`), the short-lived
ignore list (`_ignoreChanges`) and the shutdown flag. -/
structure DMState where
  windows : List (String × DTree)
  documents : List Document
  watched : List String
  ignoreChanges : List String
  shuttingDown : Bool
deriving Repr

/-- The three outcomes of the user-consent capability `askSaveChanges`
(`result.response`: 0 = Save, 1 = Don't save, 2 = Cancel). -/
inductive ConsentResponse where
  | save
  | dontSave
  | cancel
deriving DecidableEq, Repr

/-- Intermediate outcome of the ask-to-save block of `closeFile`:
the user cancelled (return `false`, untouched state), the save rejected
(the exception propagates out of `closeFile`), or execution continues
with the state mutated so far. -/
inductive CloseStep where
  | aborted
  | threw (st : DMState)
  | goOn (st : DMState)

/-- JS `String.prototype.startsWith`. -/
def strStartsWith (s pre : String) : Bool :=
  pre.data.isPrefixOf s.data

/-- JS `String.prototype.replace` with a literal string pattern: replace
the first occurrence of `pat` (if any) by `rep`, scanning left to
right. -/
def replaceFirstChars : List Char → List Char → List Char → List Char
  | [], pat, rep => if pat.isEmpty then rep else []
  | c :: cs, pat, rep =>
    if pat.isPrefixOf (c :: cs) then rep ++ (c :: cs).drop pat.length
    else c :: replaceFirstChars cs pat rep

/-- `s.replace(pat, rep)` on strings. -/
def replaceFirst (s pat rep : String) : String :=
  ⟨replaceFirstChars s.data pat.data rep.data⟩

namespace DocumentManager

/-- `this._windows[windowId]`: the document tree of a window key. -/
def windowRoot (windows : List (String × DTree)) (windowId : String) : Option DTree :=
  (windows.find? (fun w => w.1 = windowId)).map (fun w => w.2)

/-- `this._windows[windowId].findLeaf(leafId)` for a window that exists. -/
def findLeafW (windows : List (String × DTree)) (windowId leafId : String) :
    Option TabManager :=
  match windowRoot windows windowId with
  | none => none
  | some root => findLeafO root leafId

/-- All leaves of all windows, in window order (the traversal of
`forEachLeaf`). -/
def allLeafs (windows : List (String × DTree)) : List (String × TabManager) :=
  windows.flatMap (fun w => getAllLeafsO w.2)

/-- First-occurrence deduplication, `[...new Set(xs)]`. -/
def dedup : List String → List String
  | [] => []
  | x :: xs => x :: (dedup xs).filter (fun y => y ≠ x)

/-- `getOpenFiles` (index.ts:617-626): every path open in any leaf of any
window, duplicates removed. -/
def getOpenFiles (windows : List (String × DTree)) : List String :=
  dedup ((allLeafs windows).flatMap (fun l => l.2.openFiles.map (·.path)))

/-- `syncWatchedFilePaths` (index.ts:631-656) as a pure reconciliation
step on the watched path set: unwatch every watched file that is no
longer open, then watch every open file not yet watched.  Returns the new
watch set together with the lists of `unwatch` and `watch` (`add`) calls
issued. -/
def syncWatched (watched openFiles : List String) :
    List String × List String × List String :=
  let unwatchCalls := watched.filter (fun p => p ∉ openFiles)
  let addCalls := openFiles.filter (fun p => p ∉ watched)
  (watched.filter (fun p => p ∈ openFiles) ++ addCalls, unwatchCalls, addCalls)

/-- `syncWatchedFilePaths` on the provider state: reconcile the watcher
against `getOpenFiles()`.  Also returns the `unwatch`/`watch` calls
issued. -/
def syncWatchedFilePaths (st : DMState) : DMState × List String × List String :=
  let res := syncWatched st.watched (getOpenFiles st.windows)
  ({ st with watched := res.1 }, res.2.1, res.2.2)

/-- The watcher's `all` handler, ignore-list part (index.ts:119-122): an
event for a path on the ignore list is dropped and the entry is spliced
out; otherwise the event is processed.  Returns the new ignore list and
whether the event was dropped. -/
def watcherIgnores (ignoreChanges : List String) (eventPath : String) :
    List String × Bool :=
  if eventPath ∈ ignoreChanges then
    (ignoreChanges.erase eventPath, true)
  else
    (ignoreChanges, false)

/-- Replace the first document with the given path (in-place mutation of
the object returned by `this.documents.find(...)`). -/
def replaceDocFirst : List Document → String → Document → List Document
  | [], _, _ => []
  | d :: ds, p, nd =>
    if d.filePath = p then nd :: ds else d :: replaceDocFirst ds p nd

/-- `this.documents.splice(this.documents.indexOf(doc), 1)`: remove the
first document with the given path. -/
def removeDocFirst : List Document → String → List Document
  | [], _ => []
  | d :: ds, p => if d.filePath = p then ds else d :: removeDocFirst ds p

/-- `saveFile` (index.ts:960-1019).  The document descriptor is adapted
*before* attempting the I/O write: the canonical text is snapshotted, the
save timeout cleared and `lastSavedVersion` optimistically set to the
captured `currentVersion`; then `filePath` is pushed onto the ignore list
and the write is handed to the I/O collaborator.  `during` are the
updates concurrently pushed for this document while the write is in
flight, `writeOk` tells whether the write succeeded.  Returns the
JS-level result (`some` return value, `none` when the write rejected and
the exception propagates), the content handed to the I/O collaborator
(`none` when no write was attempted), and the new state.  Word-count
statistics and event emission are external effects and are elided. -/
def saveFile (st : DMState) (filePath : String) (during : List Update)
    (writeOk : Bool) : Option Bool × Option String × DMState :=
  match st.documents.find? (fun d => d.filePath = filePath) with
  | none => (some false, none, st)
  | some d =>
    let content := d.text
    let d1 := { d with saveTimeout := false, lastSavedVersion := d.currentVersion }
    let d2 := (pushUpdates d1 d1.currentVersion during).2
    let st' := { st with
        documents := replaceDocFirst st.documents filePath d2
        ignoreChanges := st.ignoreChanges ++ [filePath] }
    ((if writeOk then some true else none), some content, st')

/-- `closeWindow` (index.ts:332-351): refuse during shutdown; refuse when
the window is the last one (its state must stay restorable); otherwise
delete the window's entry. -/
def closeWindow (st : DMState) (windowId : String) : DMState :=
  if st.shuttingDown then st
  else if st.windows.length = 1 then st
  else if st.windows.any (fun w => w.1 = windowId) then
    { st with windows := st.windows.eraseP (fun w => w.1 = windowId) }
  else st

/-- `isModified` (index.ts:884-886, backed by the authority):
`lastSavedVersion != currentVersion` of the tracked document; an
untracked path is not modified. -/
def isModified (st : DMState) (filePath : String) : Bool :=
  match st.documents.find? (fun d => d.filePath = filePath) with
  | some d => d.lastSavedVersion ≠ d.currentVersion
  | none => false

/-- The `numOpenInstances` count of `closeFile` (index.ts:480-487): how
many leaves anywhere have the path among their open files. -/
def countOpenInstances (windows : List (String × DTree)) (filePath : String) : Nat :=
  (allLeafs windows).countP (fun l => l.2.openFiles.any (fun e => e.path = filePath))

/-- Replace the tab manager of one leaf of one window (the in-place
mutation of the `leaf.tabMan` object found by `findLeaf`). -/
def updateWindows (windows : List (String × DTree)) (windowId leafId : String)
    (f : TabManager → TabManager) : List (String × DTree) :=
  windows.map (fun w =>
    if w.1 = windowId then (w.1, w.2.map (fun n => updateLeafT n leafId f)) else w)

/-- `leaf.parent.removeNode(leaf)` for a leaf of one window. -/
def removeLeafW (windows : List (String × DTree)) (windowId leafId : String) :
    List (String × DTree) :=
  windows.map (fun w =>
    if w.1 = windowId then (w.1, w.2.bind (fun n => removeLeafT n leafId)) else w)

/-- `openFile.lastSavedVersion = openFile.currentVersion` on the object
found by `this.documents.find(...)` (the Discard branch of
`closeFile`). -/
def clearModFirst : List Document → String → List Document
  | [], _ => []
  | d :: ds, p =>
    if d.filePath = p then { d with lastSavedVersion := d.currentVersion } :: ds
    else d :: clearModFirst ds p

/-- `closeFile` (index.ts:473-529).  Looks up the leaf (a missing window
key throws in JS, modelled as result `none`; a missing leaf logs and
returns `false`).  If the path's document is tracked, modified, and this
is the only leaf showing it, the user-consent capability decides: Cancel
returns `false` without touching anything; Discard clears the
modification flag; Save runs `saveFile` (whose rejection propagates); in
the latter two cases the document is then spliced out of the authority.
Finally the leaf's tab is closed; on success the watch set is
reconciled and an emptied leaf is removed from its parent. -/
def closeFile (st : DMState) (windowId leafId filePath : String)
    (consent : ConsentResponse) (during : List Update) (writeOk : Bool) :
    Option Bool × DMState :=
  match windowRoot st.windows windowId with
  | none => (none, st)
  | some root =>
    match findLeafO root leafId with
    | none => (some false, st)
    | some tm =>
      let numOpenInstances := countOpenInstances st.windows filePath
      let step : CloseStep :=
        match st.documents.find? (fun d => d.filePath = filePath) with
        | none => .goOn st
        | some _ =>
          if isModified st filePath && numOpenInstances == 1 then
            match consent with
            | .cancel => .aborted
            | .dontSave =>
              .goOn { st with
                documents :=
                  removeDocFirst (clearModFirst st.documents filePath) filePath }
            | .save =>
              match saveFile st filePath during writeOk with
              | (some _, _, st1) =>
                .goOn { st1 with documents := removeDocFirst st1.documents filePath }
              | (none, _, st1) => .threw st1
          else .goOn st
      match step with
      | .aborted => (some false, st)
      | .threw st1 => (none, st1)
      | .goOn st1 =>
        match TabManager.closeFile tm filePath with
        | (false, _) => (some false, st1)
        | (true, tm') =>
          let windows1 := updateWindows st1.windows windowId leafId (fun _ => tm')
          let watched1 := (syncWatched st1.watched (getOpenFiles windows1)).1
          let windows2 :=
            if tm'.openFiles.isEmpty then removeLeafW windows1 windowId leafId
            else windows1
          (some true, { st1 with windows := windows2, watched := watched1 })

/-- The per-leaf body of `closeFileEverywhere` (index.ts:542-549): if the
leaf shows the path, clear its pinned status, then close the tab. -/
def closeEverywhereTM (tm : TabManager) (p : String) : TabManager :=
  if tm.openFiles.any (fun e => e.path = p) then
    (TabManager.closeFile (TabManager.setPinnedStatus tm p false) p).2
  else tm

/-- `closeFileEverywhere` (index.ts:539-552): force-close the path in
every leaf of every window, clearing pinned status first; the
user-consent capability is never consulted (the definition takes no
consent argument), and the authority's documents are untouched. -/
def closeFileEverywhere (st : DMState) (p : String) : DMState :=
  { st with
     windows := st.windows.map (fun w =>
       (w.1, w.2.map (fun n => mapLeavesT n (fun tm => closeEverywhereTM tm p)))) }

/-- `openFile` (index.ts:415-462).  Resolves the leaf (the first leaf of
the window when `leafId` is undefined; a missing window key throws in
JS, modelled as result `none`).  A path already open in the leaf is only
activated.  Otherwise the path is opened in a new tab, and — when the
`avoidNewTabs` setting is on, no explicit new-tab request was made and
the formerly active file is unmodified — that formerly active file is
auto-closed and the watch set reconciled. -/
def openFile (st : DMState) (windowId : String) (leafId : Option String)
    (filePath : String) (newTab : Option Bool) (avoidNewTabs : Bool) :
    Option Bool × DMState :=
  match windowRoot st.windows windowId with
  | none => (none, st)
  | some root =>
    let leafInfo : Option (String × TabManager) :=
      match leafId with
      | none => (getAllLeafsO root).head?
      | some lid => (findLeafO root lid).map (fun tm => (lid, tm))
    match leafInfo with
    | none => (some false, st)
    | some (lid, tm) =>
      if tm.openFiles.any (fun e => e.path = filePath) then
        let tm' := (TabManager.openFile tm filePath).2
        (some true,
         { st with windows := updateWindows st.windows windowId lid (fun _ => tm') })
      else
        let res := TabManager.openFile tm filePath
        match tm.active with
        | some a =>
          if avoidNewTabs && !decide (newTab = some true) && !(isModified st a) then
            let tm2 := (TabManager.closeFile res.2 a).2
            let windows1 := updateWindows st.windows windowId lid (fun _ => tm2)
            let watched1 := (syncWatched st.watched (getOpenFiles windows1)).1
            (some res.1, { st with windows := windows1, watched := watched1 })
          else
            (some res.1,
             { st with windows := updateWindows st.windows windowId lid (fun _ => res.2) })
        | none =>
          (some res.1,
           { st with windows := updateWindows st.windows windowId lid (fun _ => res.2) })

/-- The in-place path rewrite of `hasMovedFile` on the document object
found by `this.documents.find(...)`. -/
def setFilePathFirst : List Document → String → String → List Document
  | [], _, _ => []
  | d :: ds, oldPath, newPath =>
    if d.filePath = oldPath then { d with filePath := newPath } :: ds
    else d :: setFilePathFirst ds oldPath newPath

/-- `hasMovedFile` (index.ts:563-592): if a tracked document has the old
path, rewrite its path (and descriptor, elided here), run
`replaceFilePath` on every leaf, and reconcile the watch set. -/
def hasMovedFile (st : DMState) (oldPath newPath : String) : DMState :=
  match st.documents.find? (fun d => d.filePath = oldPath) with
  | none => st
  | some _ =>
    let documents := setFilePathFirst st.documents oldPath newPath
    let windows := st.windows.map (fun w =>
      (w.1, w.2.map (fun n =>
        mapLeavesT n (fun tm => (TabManager.replaceFilePath tm oldPath newPath).2))))
    let watched := (syncWatched st.watched (getOpenFiles windows)).1
    { st with documents, windows, watched }

/-- The effect of one `hasMovedFile` call on the document store alone
(the `find`-guarded in-place path rewrite). -/
def docsMoveStep (docs : List Document) (oldPath newPath : String) : List Document :=
  match docs.find? (fun d => d.filePath = oldPath) with
  | none => docs
  | some _ => setFilePathFirst docs oldPath newPath

/-- `hasMovedDir` (index.ts:602-610): for every tracked document whose
path starts with the old directory path, call `hasMovedFile` with the
first occurrence of the old path replaced.  The affected list is
computed up front; the loop reads `doc.filePath` of its snapshot
entries (none of which is mutated before its own iteration, see the
`find` in `hasMovedFile`). -/
def hasMovedDir (st : DMState) (oldPath newPath : String) : DMState :=
  let docs := st.documents.filter (fun d => strStartsWith d.filePath oldPath)
  docs.foldl (fun acc d =>
    hasMovedFile acc d.filePath (replaceFirst d.filePath oldPath newPath)) st

end DocumentManager

/-! ## Claims C1, C7, C8 -/

/-- **C1.** For every call `pushUpdates(path, baseVersion, updates)`: if
`baseVersion` differs from the document's `currentVersion` the call fails
with `StaleBase` and leaves the document state (canonical text,
`currentVersion`, replay backlog) unchanged; if `baseVersion` equals
`currentVersion` the call succeeds and `currentVersion` advances by
exactly the number of updates supplied. -/
theorem pushUpdates_stale_or_advance (doc : Document) (baseVersion : Nat)
    (updates : List Update) :
    (baseVersion ≠ doc.currentVersion →
      pushUpdates doc baseVersion updates = (.staleBase, doc)) ∧
    (baseVersion = doc.currentVersion →
      (pushUpdates doc baseVersion updates).1 =
        .ok (doc.currentVersion + updates.length) ∧
      (pushUpdates doc baseVersion updates).2.currentVersion =
        doc.currentVersion + updates.length) := by
  constructor
  · intro h
    simp [pushUpdates, h]
  · intro h
    simp [pushUpdates, h]

/-- Witness for C1 at a concrete document: a push against a stale base
(2 ≠ 3) fails and leaves the document unchanged, and a push against the
correct base (3) advances the version by the two updates supplied. -/
theorem pushUpdates_stale_or_advance_witness :
    (pushUpdates ⟨"/d.md", "hello", 3, 3, [], false⟩ 2 [⟨[.insert 0 "x"]⟩] =
      (.staleBase, ⟨"/d.md", "hello", 3, 3, [], false⟩)) ∧
    ((pushUpdates ⟨"/d.md", "hello", 3, 3, [], false⟩ 3
        [⟨[.insert 0 "x"]⟩, ⟨[.delete 1 2]⟩]).2.currentVersion = 5) :=
  ⟨(pushUpdates_stale_or_advance ⟨"/d.md", "hello", 3, 3, [], false⟩ 2
      [⟨[.insert 0 "x"]⟩]).1 (by decide),
   ((pushUpdates_stale_or_advance ⟨"/d.md", "hello", 3, 3, [], false⟩ 3
      [⟨[.insert 0 "x"]⟩, ⟨[.delete 1 2]⟩]).2 rfl).2⟩

/-- **C8.** `closeWindow` never removes the last remaining window: with
exactly one window the window map is unchanged, and in general the number
of windows stays at least 1. -/
theorem closeWindow_keeps_last_window (st : DMState) (windowId : String) :
    (st.windows.length = 1 → DocumentManager.closeWindow st windowId = st) ∧
    (1 ≤ st.windows.length →
      1 ≤ (DocumentManager.closeWindow st windowId).windows.length) := by
  constructor
  · intro h
    unfold DocumentManager.closeWindow
    split
    · rfl
    · simp [h]
  · intro h
    unfold DocumentManager.closeWindow
    split
    · exact h
    · split
      · exact h
      · rename_i hne _
        split
        · rename_i hpresent
          obtain ⟨w, hw, hpw⟩ := List.any_eq_true.mp hpresent
          have hlen := List.length_eraseP_add_one
            (p := fun w => decide (w.1 = windowId)) hw hpw
          simp only [DMState.mk.injEq]
          omega
        · exact h

/-- Witness for C8 at a concrete two-window state: closing one window
keeps at least one window, and a one-window state is left unchanged. -/
theorem closeWindow_keeps_last_window_witness :
    (DocumentManager.closeWindow ⟨[("w1", none)], [], [], [], false⟩ "w1" =
      ⟨[("w1", none)], [], [], [], false⟩) ∧
    (1 ≤ (DocumentManager.closeWindow
      ⟨[("w1", none), ("w2", none)], [], [], [], false⟩ "w1").windows.length) :=
  ⟨(closeWindow_keeps_last_window ⟨[("w1", none)], [], [], [], false⟩ "w1").1 rfl,
   (closeWindow_keeps_last_window
      ⟨[("w1", none), ("w2", none)], [], [], [], false⟩ "w1").2 (by decide)⟩

/-! ## Claims C2, C7, C6 -/

/-- Helper: `find?` after replacing the first path match finds the
replacement, provided the replacement keeps the path. -/
theorem find?_replaceDocFirst (l : List Document) (p : String) (nd : Document)
    (hnd : nd.filePath = p) :
    ∀ d, l.find? (fun x => x.filePath = p) = some d →
      (DocumentManager.replaceDocFirst l p nd).find? (fun x => x.filePath = p) =
        some nd := by
  induction l with
  | nil => intro d h; simp at h
  | cons a as ih =>
    intro d h
    by_cases ha : a.filePath = p
    · simp [DocumentManager.replaceDocFirst, ha, List.find?_cons_of_pos, hnd]
    · rw [List.find?_cons_of_neg _ (by simpa using ha)] at h
      rw [DocumentManager.replaceDocFirst, if_neg ha,
        List.find?_cons_of_neg _ (by simpa using ha)]
      exact ih d h

/-- Helper: a push against the correct base applies the updates. -/
theorem pushUpdates_correct_base (doc : Document) (us : List Update) :
    (pushUpdates doc doc.currentVersion us).2 =
      { doc with
          text := us.foldl applyUpdate doc.text
          currentVersion := doc.currentVersion + us.length
          backlog := doc.backlog ++ us } := by
  simp [pushUpdates]

/-- **C2.** In `saveFile`, `lastSavedVersion` is set to the
`currentVersion` captured together with the content snapshot before the
I/O write is invoked; consequently a failed write does not revert
`lastSavedVersion` (the conclusion holds for both values of `writeOk`),
and any edit that raises `currentVersion` while the write is in flight
leaves the document reported as modified afterward. -/
theorem saveFile_optimistic_lastSaved (st : DMState) (filePath : String)
    (d : Document)
    (h : st.documents.find? (fun x => x.filePath = filePath) = some d)
    (during : List Update) (writeOk : Bool) :
    ∃ d',
      (DocumentManager.saveFile st filePath during writeOk).2.2.documents.find?
          (fun x => x.filePath = filePath) = some d' ∧
      d'.lastSavedVersion = d.currentVersion ∧
      d'.currentVersion = d.currentVersion + during.length ∧
      (DocumentManager.saveFile st filePath during writeOk).2.1 = some d.text ∧
      (during ≠ [] →
        DocumentManager.isModified
          (DocumentManager.saveFile st filePath during writeOk).2.2 filePath =
          true) := by
  have hdp : d.filePath = filePath := by
    have := List.find?_some h
    simpa using this
  have hfind :
      (DocumentManager.saveFile st filePath during writeOk).2.2.documents.find?
        (fun x => x.filePath = filePath) =
      some { d with
              saveTimeout := false
              lastSavedVersion := d.currentVersion
              text := during.foldl applyUpdate d.text
              currentVersion := d.currentVersion + during.length
              backlog := d.backlog ++ during } := by
    simp only [DocumentManager.saveFile, h, pushUpdates_correct_base]
    exact find?_replaceDocFirst st.documents filePath _ (by simpa using hdp) d h
  refine ⟨_, hfind, rfl, rfl, ?_, ?_⟩
  · simp [DocumentManager.saveFile, h]
  · intro hd
    simp only [DocumentManager.isModified, hfind]
    have : during.length ≠ 0 := by
      simpa using (List.length_pos.mpr hd).ne'
    simp only [decide_eq_true_eq]
    omega

/-- Witness for C2: a concrete document at version 2 saved while one
concurrent update arrives and the write fails still records
`lastSavedVersion = 2` and is reported modified afterwards. -/
theorem saveFile_optimistic_lastSaved_witness :
    ∃ d',
      (DocumentManager.saveFile ⟨[], [⟨"/f.md", "abc", 2, 1, [], true⟩], [], [], false⟩
          "/f.md" [⟨[TextOp.insert 0 "x"]⟩] false).2.2.documents.find?
          (fun x => x.filePath = "/f.md") = some d' ∧
      d'.lastSavedVersion = 2 ∧
      d'.currentVersion = 2 + [(⟨[TextOp.insert 0 "x"]⟩ : Update)].length ∧
      (DocumentManager.saveFile ⟨[], [⟨"/f.md", "abc", 2, 1, [], true⟩], [], [], false⟩
          "/f.md" [⟨[TextOp.insert 0 "x"]⟩] false).2.1 = some "abc" ∧
      ([(⟨[TextOp.insert 0 "x"]⟩ : Update)] ≠ [] →
        DocumentManager.isModified
          (DocumentManager.saveFile ⟨[], [⟨"/f.md", "abc", 2, 1, [], true⟩], [], [], false⟩
            "/f.md" [⟨[TextOp.insert 0 "x"]⟩] false).2.2 "/f.md" = true) :=
  saveFile_optimistic_lastSaved
    ⟨[], [⟨"/f.md", "abc", 2, 1, [], true⟩], [], [], false⟩ "/f.md"
    ⟨"/f.md", "abc", 2, 1, [], true⟩ (by decide) [⟨[TextOp.insert 0 "x"]⟩] false

/-- **C7.** For each entry pushed onto the ignore list immediately before
a self-initiated save of a path (the `_ignoreChanges.push` in
`saveFile`), exactly the first subsequent watcher event for that path is
dropped and the entry is removed; a second event for the same path is
processed normally unless a new entry was pushed. -/
theorem ignoreChanges_drop_exactly_once (st : DMState) (filePath : String)
    (d : Document)
    (hd : st.documents.find? (fun x => x.filePath = filePath) = some d)
    (hni : filePath ∉ st.ignoreChanges) (during : List Update) (writeOk : Bool) :
    (DocumentManager.saveFile st filePath during writeOk).2.2.ignoreChanges =
      st.ignoreChanges ++ [filePath] ∧
    DocumentManager.watcherIgnores (st.ignoreChanges ++ [filePath]) filePath =
      (st.ignoreChanges, true) ∧
    DocumentManager.watcherIgnores st.ignoreChanges filePath =
      (st.ignoreChanges, false) := by
  refine ⟨?_, ?_, ?_⟩
  · simp [DocumentManager.saveFile, hd]
  · have hmem : filePath ∈ st.ignoreChanges ++ [filePath] := by simp
    simp only [DocumentManager.watcherIgnores, if_pos hmem, Prod.mk.injEq]
    refine ⟨?_, trivial⟩
    rw [List.erase_append_right _ hni]
    simp
  · simp [DocumentManager.watcherIgnores, hni]

/-- Witness for C7 at a concrete state: the entry pushed by `saveFile`
causes exactly one drop. -/
theorem ignoreChanges_drop_exactly_once_witness :
    (DocumentManager.saveFile ⟨[], [⟨"/g.md", "t", 1, 1, [], false⟩], [], ["/other"], false⟩
        "/g.md" [] true).2.2.ignoreChanges = ["/other"] ++ ["/g.md"] ∧
    DocumentManager.watcherIgnores (["/other"] ++ ["/g.md"]) "/g.md" =
      (["/other"], true) ∧
    DocumentManager.watcherIgnores ["/other"] "/g.md" = (["/other"], false) :=
  ignoreChanges_drop_exactly_once
    ⟨[], [⟨"/g.md", "t", 1, 1, [], false⟩], [], ["/other"], false⟩ "/g.md"
    ⟨"/g.md", "t", 1, 1, [], false⟩ (by decide) (by decide) [] true

/-- Helper: membership in the reconciled watch set is exactly membership
in the open-file set. -/
theorem mem_syncWatched_fst (watched opens : List String) (p : String) :
    p ∈ (DocumentManager.syncWatched watched opens).1 ↔ p ∈ opens := by
  simp only [DocumentManager.syncWatched, List.mem_append, List.mem_filter,
    decide_eq_true_eq]
  by_cases hw : p ∈ watched <;> by_cases ho : p ∈ opens <;> simp [hw, ho]

/-- Helper: reconciling an already-reconciled watch set issues no calls. -/
theorem syncWatched_again_no_calls (watched opens : List String) :
    (DocumentManager.syncWatched
        (DocumentManager.syncWatched watched opens).1 opens).2.1 = [] ∧
    (DocumentManager.syncWatched
        (DocumentManager.syncWatched watched opens).1 opens).2.2 = [] := by
  constructor
  · apply List.filter_eq_nil_iff.mpr
    intro a ha
    have : a ∈ opens := (mem_syncWatched_fst watched opens a).mp ha
    simp [this]
  · apply List.filter_eq_nil_iff.mpr
    intro a ha
    have : a ∈ (DocumentManager.syncWatched watched opens).1 :=
      (mem_syncWatched_fst watched opens a).mpr ha
    simp [this]

/-- **C6.** After `syncWatchedFilePaths` runs, the watched path set
equals the set of distinct open file paths across all windows, and
running `syncWatchedFilePaths` a second time with no intervening tree
mutation issues zero watch and zero unwatch calls. -/
theorem syncWatchedFilePaths_reconciles_and_idempotent (st : DMState) :
    (∀ p, p ∈ (DocumentManager.syncWatchedFilePaths st).1.watched ↔
        p ∈ DocumentManager.getOpenFiles st.windows) ∧
    (DocumentManager.syncWatchedFilePaths
        (DocumentManager.syncWatchedFilePaths st).1).2.1 = [] ∧
    (DocumentManager.syncWatchedFilePaths
        (DocumentManager.syncWatchedFilePaths st).1).2.2 = [] :=
  ⟨fun p => mem_syncWatched_fst st.watched (DocumentManager.getOpenFiles st.windows) p,
   (syncWatched_again_no_calls st.watched (DocumentManager.getOpenFiles st.windows)).1,
   (syncWatched_again_no_calls st.watched (DocumentManager.getOpenFiles st.windows)).2⟩

/-! ## Tree lemmas -/

mutual

/-- Updating a leaf's tab manager is observed by `findLeaf`. -/
theorem findLeaf_updateLeafT (t : DTNode) (lid : String) (f : TabManager → TabManager) :
    findLeaf (updateLeafT t lid f) lid = (findLeaf t lid).map f := by
  cases t with
  | leaf id tm =>
    by_cases h : id = lid
    · simp [updateLeafT, findLeaf, h]
    · simp [updateLeafT, findLeaf, h]
  | branch id cs =>
    simpa [updateLeafT, findLeaf] using findLeafList_updateLeafTList cs lid f

/-- `findLeaf_updateLeafT` over a branch's children. -/
theorem findLeafList_updateLeafTList (ts : List DTNode) (lid : String)
    (f : TabManager → TabManager) :
    findLeafList (updateLeafTList ts lid f) lid = (findLeafList ts lid).map f := by
  cases ts with
  | nil => simp [updateLeafTList, findLeafList]
  | cons c cs =>
    have h1 := findLeaf_updateLeafT c lid f
    have h2 := findLeafList_updateLeafTList cs lid f
    simp only [updateLeafTList, findLeafList, h1]
    cases hc : findLeaf c lid with
    | none => simpa [hc] using h2
    | some tm => simp [hc]

end

mutual

/-- After removing the leaf with a given id, `findLeaf` no longer finds
it. -/
theorem findLeafO_removeLeafT (t : DTNode) (lid : String) :
    findLeafO (removeLeafT t lid) lid = none := by
  cases t with
  | leaf id tm =>
    by_cases h : id = lid
    · simp [removeLeafT, h, findLeafO]
    · simp [removeLeafT, h, findLeafO, findLeaf]
  | branch id cs =>
    have hlist := findLeafList_removeLeafTList cs lid
    cases hcs : removeLeafTList cs lid with
    | nil => simp [removeLeafT, hcs, findLeafO]
    | cons c rest =>
      rw [hcs] at hlist
      cases rest with
      | nil =>
        simp only [removeLeafT, hcs, findLeafO]
        simp only [findLeafList] at hlist
        cases hc : findLeaf c lid with
        | none => rfl
        | some tm => rw [hc] at hlist; exact absurd hlist (by simp)
      | cons c2 rest2 =>
        simpa [removeLeafT, hcs, findLeafO, findLeaf] using hlist

/-- `findLeafO_removeLeafT` over a branch's children. -/
theorem findLeafList_removeLeafTList (ts : List DTNode) (lid : String) :
    findLeafList (removeLeafTList ts lid) lid = none := by
  cases ts with
  | nil => simp [removeLeafTList, findLeafList]
  | cons c cs =>
    have h1 := findLeafO_removeLeafT c lid
    have h2 := findLeafList_removeLeafTList cs lid
    cases hc : removeLeafT c lid with
    | none => simpa [removeLeafTList, hc] using h2
    | some c' =>
      rw [hc] at h1
      simp only [findLeafO] at h1
      simp [removeLeafTList, hc, findLeafList, h1, h2]

end

mutual

/-- `getAllLeafs` after transforming every leaf's tab manager. -/
theorem getAllLeafs_mapLeavesT (t : DTNode) (f : TabManager → TabManager) :
    getAllLeafs (mapLeavesT t f) = (getAllLeafs t).map (fun x => (x.1, f x.2)) := by
  cases t with
  | leaf id tm => simp [mapLeavesT, getAllLeafs]
  | branch id cs =>
    simpa [mapLeavesT, getAllLeafs] using getAllLeafsList_mapLeavesTList cs f

/-- `getAllLeafs_mapLeavesT` over a branch's children. -/
theorem getAllLeafsList_mapLeavesTList (ts : List DTNode) (f : TabManager → TabManager) :
    getAllLeafsList (mapLeavesTList ts f) = (getAllLeafsList ts).map (fun x => (x.1, f x.2)) := by
  cases ts with
  | nil => simp [mapLeavesTList, getAllLeafsList]
  | cons c cs =>
    have h1 := getAllLeafs_mapLeavesT c f
    have h2 := getAllLeafsList_mapLeavesTList cs f
    simp [mapLeavesTList, getAllLeafsList, h1, h2]

end

/-- The window lookup after updating one leaf of one window. -/
theorem windowRoot_updateWindows (ws : List (String × DTree)) (wid lid : String)
    (f : TabManager → TabManager) :
    DocumentManager.windowRoot (DocumentManager.updateWindows ws wid lid f) wid =
      (DocumentManager.windowRoot ws wid).map
        (Option.map (fun n => updateLeafT n lid f)) := by
  induction ws with
  | nil => rfl
  | cons w ws ih =>
    simp only [DocumentManager.updateWindows, DocumentManager.windowRoot,
      List.map_cons] at ih ⊢
    by_cases h : w.1 = wid
    · simp [List.find?_cons, h]
    · simp only [if_neg h, List.find?_cons, h, decide_eq_true_eq]
      simpa [List.find?_cons, h] using ih

/-- The window lookup after removing one leaf of one window. -/
theorem windowRoot_removeLeafW (ws : List (String × DTree)) (wid lid : String) :
    DocumentManager.windowRoot (DocumentManager.removeLeafW ws wid lid) wid =
      (DocumentManager.windowRoot ws wid).map
        (fun t => t.bind (fun n => removeLeafT n lid)) := by
  induction ws with
  | nil => rfl
  | cons w ws ih =>
    simp only [DocumentManager.removeLeafW, DocumentManager.windowRoot,
      List.map_cons] at ih ⊢
    by_cases h : w.1 = wid
    · simp [List.find?_cons, h]
    · simp only [if_neg h, List.find?_cons, h, decide_eq_true_eq]
      simpa [List.find?_cons, h] using ih

/-! ## Claims C3, C9 -/

/-- Helper: a modified path has a tracked document. -/
theorem isModified_find_some (st : DMState) (filePath : String)
    (hm : DocumentManager.isModified st filePath = true) :
    ∃ d, st.documents.find? (fun x => x.filePath = filePath) = some d := by
  unfold DocumentManager.isModified at hm
  cases hfd : st.documents.find? (fun x => x.filePath = filePath) with
  | none => rw [hfd] at hm; simp at hm
  | some d => exact ⟨d, rfl⟩

/-- **C3.** For every `closeFile(windowId, leafId, path)` where exactly
one leaf anywhere references `path` and the document is modified, if the
user-consent capability returns Cancel then `closeFile` returns `false`
and performs no mutation: the resulting state is the initial state, so
the tab stays open, the document stays tracked by the authority, and its
version state is unchanged. -/
theorem closeFile_cancel_no_mutation (st : DMState)
    (windowId leafId filePath : String) (root : DTree) (tm : TabManager)
    (during : List Update) (writeOk : Bool)
    (hw : DocumentManager.windowRoot st.windows windowId = some root)
    (hl : findLeafO root leafId = some tm)
    (hm : DocumentManager.isModified st filePath = true)
    (hc : DocumentManager.countOpenInstances st.windows filePath = 1) :
    DocumentManager.closeFile st windowId leafId filePath .cancel during writeOk =
      (some false, st) := by
  obtain ⟨d, hd⟩ := isModified_find_some st filePath hm
  simp [DocumentManager.closeFile, hw, hl, hd, hm, hc]

/-- Witness for C3: a concrete one-window, one-leaf state with a modified
document; Cancel leaves the state literally unchanged. -/
theorem closeFile_cancel_no_mutation_witness :
    DocumentManager.closeFile
      ⟨[("w", some (.leaf "l" ⟨[⟨"/f.md", false⟩], some "/f.md", []⟩))],
       [⟨"/f.md", "txt", 3, 1, [], false⟩], ["/f.md"], [], false⟩
      "w" "l" "/f.md" .cancel [] true =
    (some false,
     ⟨[("w", some (.leaf "l" ⟨[⟨"/f.md", false⟩], some "/f.md", []⟩))],
      [⟨"/f.md", "txt", 3, 1, [], false⟩], ["/f.md"], [], false⟩) :=
  closeFile_cancel_no_mutation
    ⟨[("w", some (.leaf "l" ⟨[⟨"/f.md", false⟩], some "/f.md", []⟩))],
     [⟨"/f.md", "txt", 3, 1, [], false⟩], ["/f.md"], [], false⟩
    "w" "l" "/f.md" (some (.leaf "l" ⟨[⟨"/f.md", false⟩], some "/f.md", []⟩))
    ⟨[⟨"/f.md", false⟩], some "/f.md", []⟩ [] true
    (by rfl) (by rfl) (by decide) (by decide)

/-- **C9.** When the `avoidNewTabs` configuration is enabled and
`openFile` is called without the `newTab` flag for a file not yet open in
the target leaf, a modified active file is never auto-closed: the leaf
afterwards holds all its previous tabs plus the new one, the formerly
active (modified) file among them. -/
theorem openFile_never_closes_modified_active (st : DMState)
    (windowId lid filePath a : String) (root : DTree) (tm : TabManager)
    (newTab : Option Bool)
    (hw : DocumentManager.windowRoot st.windows windowId = some root)
    (hl : findLeafO root lid = some tm)
    (ha : tm.active = some a)
    (hmem : a ∈ tm.openFiles.map (·.path))
    (hnew : filePath ∉ tm.openFiles.map (·.path))
    (hmod : DocumentManager.isModified st a = true)
    (hnt : newTab ≠ some true) :
    ∃ tm',
      DocumentManager.findLeafW
        (DocumentManager.openFile st windowId (some lid) filePath newTab true).2.windows
        windowId lid = some tm' ∧
      tm'.openFiles.map (·.path) = tm.openFiles.map (·.path) ++ [filePath] ∧
      a ∈ tm'.openFiles.map (·.path) := by
  have hany : tm.openFiles.any (fun e => e.path = filePath) = false := by
    simp only [List.any_eq_false, decide_eq_true_eq]
    intro e he
    intro hcontra
    exact hnew (by simpa [hcontra] using List.mem_map_of_mem (·.path) he)
  obtain ⟨n, rfl⟩ : ∃ n, root = some n := by
    cases root with
    | none => simp [findLeafO] at hl
    | some n => exact ⟨n, rfl⟩
  have hl' : findLeaf n lid = some tm := by simpa [findLeafO] using hl
  have hres : DocumentManager.openFile st windowId (some lid) filePath newTab true =
      (some true, { st with windows := DocumentManager.updateWindows st.windows windowId lid (fun _ => (TabManager.openFile tm filePath).2) }) := by
    simp [DocumentManager.openFile, hw, hl, ha, hmod, TabManager.openFile, hany]
  refine ⟨(TabManager.openFile tm filePath).2, ?_, ?_, ?_⟩
  · rw [hres]
    simp [DocumentManager.findLeafW, windowRoot_updateWindows, hw, findLeafO,
      findLeaf_updateLeafT, hl']
  · simp [TabManager.openFile, hany]
  · simp [TabManager.openFile, hany, hmem]

/-- Witness for C9: a modified active file `/a.md` survives opening
`/b.md` in the same leaf with `avoidNewTabs` on. -/
theorem openFile_never_closes_modified_active_witness :
    ∃ tm',
      DocumentManager.findLeafW
        (DocumentManager.openFile
          ⟨[("w", some (.leaf "l" ⟨[⟨"/a.md", false⟩], some "/a.md", []⟩))],
           [⟨"/a.md", "x", 2, 1, [], false⟩], ["/a.md"], [], false⟩
          "w" (some "l") "/b.md" none true).2.windows
        "w" "l" = some tm' ∧
      tm'.openFiles.map (·.path) =
        ([⟨"/a.md", false⟩] : List OpenDoc).map (·.path) ++ ["/b.md"] ∧
      "/a.md" ∈ tm'.openFiles.map (·.path) :=
  openFile_never_closes_modified_active
    ⟨[("w", some (.leaf "l" ⟨[⟨"/a.md", false⟩], some "/a.md", []⟩))],
     [⟨"/a.md", "x", 2, 1, [], false⟩], ["/a.md"], [], false⟩
    "w" "l" "/b.md" "/a.md"
    (some (.leaf "l" ⟨[⟨"/a.md", false⟩], some "/a.md", []⟩))
    ⟨[⟨"/a.md", false⟩], some "/a.md", []⟩ none
    (by rfl) (by rfl) (by rfl) (by decide) (by decide) (by decide) (by decide)

/-! ## Claim C4 -/

/-- Helper: if the first tab with path `p` is unpinned, the scan removes
it; the remaining paths are the original ones with the first `p` erased,
and the rest is empty exactly when the tab strip was that single tab. -/
theorem closeScan_removed_of_find? (l : List OpenDoc) (p : String)
    (h : l.find? (fun e => e.path = p) = some ⟨p, false⟩) :
    ∃ rest nb, TabManager.closeScan l p = .removed rest nb ∧
      rest.map (·.path) = (l.map (·.path)).erase p ∧
      (rest = [] ↔ l = [(⟨p, false⟩ : OpenDoc)]) := by
  induction l with
  | nil => simp at h
  | cons e es ih =>
    by_cases he : e.path = p
    · rw [List.find?_cons_of_pos _ (by simpa using he)] at h
      obtain rfl : e = ⟨p, false⟩ := by simpa using h
      refine ⟨es, es.head?.map (·.path), ?_, ?_, ?_⟩
      · simp [TabManager.closeScan]
      · simp
      · simp
    · rw [List.find?_cons_of_neg _ (by simpa using he)] at h
      obtain ⟨rest, nb, h1, h2, h3⟩ := ih h
      have hrest2 : (e :: rest = [] ↔ e :: es = [(⟨p, false⟩ : OpenDoc)]) := by
        constructor
        · intro hx; exact absurd hx (by simp)
        · intro hx
          have he2 : e = (⟨p, false⟩ : OpenDoc) := by
            injection hx
          exact absurd (by simp [he2]) he
      have hmap2 : (e :: rest).map (·.path) = ((e :: es).map (·.path)).erase p := by
        rw [List.map_cons, List.map_cons,
          List.erase_cons_tail (by simpa using he), h2]
      cases nb with
      | some x =>
        exact ⟨e :: rest, some x, by simp [TabManager.closeScan, he, h1],
          hmap2, hrest2⟩
      | none =>
        exact ⟨e :: rest, some e.path, by simp [TabManager.closeScan, he, h1],
          hmap2, hrest2⟩

/-- Helper: clearing the modification flag preserves document paths. -/
theorem map_filePath_clearModFirst (l : List Document) (p : String) :
    (DocumentManager.clearModFirst l p).map Document.filePath =
      l.map Document.filePath := by
  induction l with
  | nil => rfl
  | cons d ds ih =>
    by_cases hd : d.filePath = p
    · simp [DocumentManager.clearModFirst, hd]
    · simp [DocumentManager.clearModFirst, hd, ih]

/-- Helper: with pairwise distinct document paths, splicing out the
first (only) document with path `p` leaves none. -/
theorem find?_removeDocFirst_nodup (l : List Document) (p : String)
    (hnd : (l.map Document.filePath).Nodup) :
    (DocumentManager.removeDocFirst l p).find? (fun x => x.filePath = p) = none := by
  induction l with
  | nil => simp [DocumentManager.removeDocFirst]
  | cons d ds ih =>
    have hnd' : (∀ x ∈ ds, ¬ x.filePath = d.filePath) ∧
        (ds.map Document.filePath).Nodup := by simpa using hnd
    by_cases hd : d.filePath = p
    · simp only [DocumentManager.removeDocFirst, if_pos hd]
      apply List.find?_eq_none.mpr
      intro x hx
      simp only [decide_eq_true_eq]
      intro hxp
      exact hnd'.1 x hx (by rw [hxp, hd])
    · simp only [DocumentManager.removeDocFirst, if_neg hd]
      rw [List.find?_cons_of_neg _ (by simpa using hd)]
      exact ih hnd'.2

/-- **C4 (counterexample).** The claim fails on a pinned tab: in a state
whose only leaf shows the modified file `/p.md` in a *pinned* tab, the
consent outcome Discard does clear the modification state, but the tab
is **not** closed (`closeFile` returns `false` and the tab survives),
because the tab manager refuses to close pinned tabs. -/
theorem closeFile_discard_pinned_counterexample :
    DocumentManager.countOpenInstances
      ([("w", some (.leaf "l" ⟨[⟨"/p.md", true⟩], some "/p.md", []⟩))] :
        List (String × DTree)) "/p.md" = 1 ∧
    DocumentManager.isModified
      ⟨[("w", some (.leaf "l" ⟨[⟨"/p.md", true⟩], some "/p.md", []⟩))],
       [⟨"/p.md", "t", 2, 0, [], false⟩], [], [], false⟩ "/p.md" = true ∧
    (DocumentManager.closeFile
      ⟨[("w", some (.leaf "l" ⟨[⟨"/p.md", true⟩], some "/p.md", []⟩))],
       [⟨"/p.md", "t", 2, 0, [], false⟩], [], [], false⟩
      "w" "l" "/p.md" .dontSave [] true).1 = some false ∧
    DocumentManager.findLeafW
      (DocumentManager.closeFile
        ⟨[("w", some (.leaf "l" ⟨[⟨"/p.md", true⟩], some "/p.md", []⟩))],
         [⟨"/p.md", "t", 2, 0, [], false⟩], [], [], false⟩
        "w" "l" "/p.md" .dontSave [] true).2.windows "w" "l" =
      some ⟨[⟨"/p.md", true⟩], some "/p.md", []⟩ := by
  refine ⟨by decide, by decide, ?_, ?_⟩ <;> decide

/-- **C4 (amended).** Closing via `closeFile` the only leaf reference to
a modified file whose tab is *not pinned*, with consent outcome Discard,
clears the modification state (`isModified(path)` becomes `false`,
`lastSavedVersion` having been set to `currentVersion` before the
document is dropped from the authority) and closes the tab; if that tab
was the leaf's last, the leaf is removed from its parent. -/
theorem closeFile_discard_clears_and_closes (st : DMState)
    (windowId leafId filePath : String) (root : DTree) (tm : TabManager)
    (during : List Update) (writeOk : Bool)
    (hw : DocumentManager.windowRoot st.windows windowId = some root)
    (hl : findLeafO root leafId = some tm)
    (hfirst : tm.openFiles.find? (fun e => e.path = filePath) =
      some ⟨filePath, false⟩)
    (hm : DocumentManager.isModified st filePath = true)
    (hc : DocumentManager.countOpenInstances st.windows filePath = 1)
    (hnd : (st.documents.map Document.filePath).Nodup) :
    (DocumentManager.closeFile st windowId leafId filePath .dontSave during
        writeOk).1 = some true ∧
    DocumentManager.isModified
      (DocumentManager.closeFile st windowId leafId filePath .dontSave during
        writeOk).2 filePath = false ∧
    (tm.openFiles = [⟨filePath, false⟩] →
      DocumentManager.findLeafW
        (DocumentManager.closeFile st windowId leafId filePath .dontSave during
          writeOk).2.windows windowId leafId = none) ∧
    (tm.openFiles ≠ [⟨filePath, false⟩] →
      ∃ tm',
        DocumentManager.findLeafW
          (DocumentManager.closeFile st windowId leafId filePath .dontSave during
            writeOk).2.windows windowId leafId = some tm' ∧
        tm'.openFiles.map (·.path) = (tm.openFiles.map (·.path)).erase filePath) := by
  obtain ⟨d, hd⟩ := isModified_find_some st filePath hm
  obtain ⟨rest, nb, hscan, hpaths, hiff⟩ :=
    closeScan_removed_of_find? tm.openFiles filePath hfirst
  obtain ⟨n, rfl⟩ : ∃ n, root = some n := by
    cases root with
    | none => simp [findLeafO] at hl
    | some n => exact ⟨n, rfl⟩
  have hl' : findLeaf n leafId = some tm := by simpa [findLeafO] using hl
  have htmclose : TabManager.closeFile tm filePath =
      (true, { tm with
                openFiles := rest
                active := if tm.active = some filePath then nb else tm.active }) := by
    simp [TabManager.closeFile, hscan]
  have hnone := find?_removeDocFirst_nodup
    (DocumentManager.clearModFirst st.documents filePath) filePath
    (by rw [map_filePath_clearModFirst]; exact hnd)
  have hdm : d.lastSavedVersion ≠ d.currentVersion := by
    have h2 := hm
    simp only [DocumentManager.isModified, hd] at h2
    simpa using h2
  refine ⟨?_, ?_, ?_, ?_⟩
  · simp [DocumentManager.closeFile, DocumentManager.isModified, hw, hl, hd,
      hdm, hc, htmclose]
  · simp [DocumentManager.closeFile, DocumentManager.isModified, hw, hl, hd,
      hdm, hc, htmclose, hnone]
  · intro hlast
    have hrest : rest = [] := hiff.mpr hlast
    simp [DocumentManager.closeFile, DocumentManager.isModified, hw, hl, hd,
      hdm, hc, htmclose, hrest, DocumentManager.findLeafW,
      windowRoot_removeLeafW, windowRoot_updateWindows, findLeafO_removeLeafT]
  · intro hmore
    have hrest : rest ≠ [] := fun hx => hmore (hiff.mp hx)
    refine ⟨{ tm with
               openFiles := rest
               active := if tm.active = some filePath then nb else tm.active },
            ?_, ?_⟩
    · simp [DocumentManager.closeFile, DocumentManager.isModified, hw, hl, hd,
        hdm, hc, htmclose, hrest, DocumentManager.findLeafW,
        windowRoot_updateWindows, findLeafO, findLeaf_updateLeafT, hl']
    · simpa using hpaths

/-- Witness for the amended C4: the same scenario with an unpinned tab;
Discard clears the modification state, closes the tab and removes the
now-empty leaf. -/
theorem closeFile_discard_clears_and_closes_witness :
    (DocumentManager.closeFile
      ⟨[("w", some (.leaf "l" ⟨[⟨"/p.md", false⟩], some "/p.md", []⟩))],
       [⟨"/p.md", "t", 2, 0, [], false⟩], [], [], false⟩
      "w" "l" "/p.md" .dontSave [] true).1 = some true ∧
    DocumentManager.isModified
      (DocumentManager.closeFile
        ⟨[("w", some (.leaf "l" ⟨[⟨"/p.md", false⟩], some "/p.md", []⟩))],
         [⟨"/p.md", "t", 2, 0, [], false⟩], [], [], false⟩
        "w" "l" "/p.md" .dontSave [] true).2 "/p.md" = false ∧
    (([⟨"/p.md", false⟩] : List OpenDoc) = [⟨"/p.md", false⟩] →
      DocumentManager.findLeafW
        (DocumentManager.closeFile
          ⟨[("w", some (.leaf "l" ⟨[⟨"/p.md", false⟩], some "/p.md", []⟩))],
           [⟨"/p.md", "t", 2, 0, [], false⟩], [], [], false⟩
          "w" "l" "/p.md" .dontSave [] true).2.windows "w" "l" = none) ∧
    (([⟨"/p.md", false⟩] : List OpenDoc) ≠ [⟨"/p.md", false⟩] →
      ∃ tm',
        DocumentManager.findLeafW
          (DocumentManager.closeFile
            ⟨[("w", some (.leaf "l" ⟨[⟨"/p.md", false⟩], some "/p.md", []⟩))],
             [⟨"/p.md", "t", 2, 0, [], false⟩], [], [], false⟩
            "w" "l" "/p.md" .dontSave [] true).2.windows "w" "l" = some tm' ∧
        tm'.openFiles.map (·.path) =
          (([⟨"/p.md", false⟩] : List OpenDoc).map (·.path)).erase "/p.md") :=
  closeFile_discard_clears_and_closes
    ⟨[("w", some (.leaf "l" ⟨[⟨"/p.md", false⟩], some "/p.md", []⟩))],
     [⟨"/p.md", "t", 2, 0, [], false⟩], [], [], false⟩
    "w" "l" "/p.md" (some (.leaf "l" ⟨[⟨"/p.md", false⟩], some "/p.md", []⟩))
    ⟨[⟨"/p.md", false⟩], some "/p.md", []⟩ [] true
    (by rfl) (by rfl) (by decide) (by decide) (by decide) (by decide)

/-! ## Claim C5 -/

/-- Helper: unpinning a path present in the tab list makes its first
occurrence findable as an unpinned entry. -/
theorem find?_unpin (l : List OpenDoc) (p : String)
    (h : l.any (fun e => e.path = p) = true) :
    (l.map (fun e => if e.path = p then { e with pinned := false } else e)).find?
      (fun e => e.path = p) = some ⟨p, false⟩ := by
  induction l with
  | nil => simp at h
  | cons e es ih =>
    by_cases he : e.path = p
    · simp only [List.map_cons, if_pos he]
      rw [List.find?_cons_of_pos _ (by simpa using he)]
      simp [he]
    · simp only [List.map_cons, if_neg he]
      rw [List.find?_cons_of_neg _ (by simpa using he)]
      exact ih (by simpa [he] using h)

/-- Helper: toggling pinned flags does not change the stored paths. -/
theorem map_path_setPinned (l : List OpenDoc) (p : String) (b : Bool) :
    (l.map (fun e => if e.path = p then { e with pinned := b } else e)).map (·.path) =
      l.map (·.path) := by
  induction l with
  | nil => rfl
  | cons e es ih =>
    by_cases he : e.path = p
    · simp [he, ih]
    · simp [he, ih]

/-- Helper: the per-leaf step of `closeFileEverywhere` leaves no tab for
the path (paths are unique within one leaf, spec §3). -/
theorem closeEverywhereTM_no_path (tm : TabManager) (p : String)
    (hnd : (tm.openFiles.map (·.path)).Nodup) :
    ∀ e ∈ (DocumentManager.closeEverywhereTM tm p).openFiles, e.path ≠ p := by
  by_cases hany : tm.openFiles.any (fun e => e.path = p) = true
  · have hfind : (TabManager.setPinnedStatus tm p false).openFiles.find?
        (fun e => e.path = p) = some ⟨p, false⟩ := by
      simpa [TabManager.setPinnedStatus] using find?_unpin tm.openFiles p hany
    obtain ⟨rest, nb, hscan, hpaths, _⟩ :=
      closeScan_removed_of_find? (TabManager.setPinnedStatus tm p false).openFiles
        p hfind
    have hresult : (DocumentManager.closeEverywhereTM tm p).openFiles = rest := by
      simp [DocumentManager.closeEverywhereTM, hany, TabManager.closeFile, hscan]
    intro e he hep
    rw [hresult] at he
    have hmem : e.path ∈ rest.map (·.path) := List.mem_map_of_mem (·.path) he
    rw [hpaths] at hmem
    have hpp : (TabManager.setPinnedStatus tm p false).openFiles.map (·.path) =
        tm.openFiles.map (·.path) := by
      simpa [TabManager.setPinnedStatus] using map_path_setPinned tm.openFiles p false
    rw [hpp, hep] at hmem
    exact ((hnd.mem_erase_iff).mp hmem).1 rfl
  · intro e he hep
    have : (DocumentManager.closeEverywhereTM tm p).openFiles = tm.openFiles := by
      simp [DocumentManager.closeEverywhereTM, hany]
    rw [this] at he
    have hany' : ∀ x ∈ tm.openFiles, ¬ x.path = p := by
      simpa [List.any_eq_false] using hany
    exact hany' e he hep

/-- Helper: leaves of a mapped tree. -/
theorem getAllLeafsO_map (t : DTree) (f : TabManager → TabManager) :
    getAllLeafsO (t.map (fun n => mapLeavesT n f)) =
      (getAllLeafsO t).map (fun x => (x.1, f x.2)) := by
  cases t with
  | none => rfl
  | some n => simpa [getAllLeafsO] using getAllLeafs_mapLeavesT n f

/-- **C5.** `closeFileEverywhere(path)` clears the pinned status for
`path` and closes its tab in every leaf of every window, without ever
consulting the user-consent capability (the definition takes no consent
input); afterwards no leaf in any window references `path`.  Paths are
unique within each leaf (spec §3). -/
theorem closeFileEverywhere_removes_path (st : DMState) (p : String)
    (hnd : ∀ l ∈ DocumentManager.allLeafs st.windows,
      (l.2.openFiles.map (·.path)).Nodup) :
    ∀ l ∈ DocumentManager.allLeafs
        (DocumentManager.closeFileEverywhere st p).windows,
      ∀ e ∈ l.2.openFiles, e.path ≠ p := by
  intro l hl
  simp only [DocumentManager.closeFileEverywhere, DocumentManager.allLeafs] at hl
  rw [List.mem_flatMap] at hl
  obtain ⟨w, hw, hlw⟩ := hl
  rw [List.mem_map] at hw
  obtain ⟨w0, hw0, rfl⟩ := hw
  rw [getAllLeafsO_map] at hlw
  rw [List.mem_map] at hlw
  obtain ⟨x, hx, rfl⟩ := hlw
  have hxin : x ∈ DocumentManager.allLeafs st.windows := by
    unfold DocumentManager.allLeafs
    rw [List.mem_flatMap]
    exact ⟨w0, hw0, hx⟩
  exact closeEverywhereTM_no_path x.2 p (hnd x hxin)

/-- Witness for C5, the spec's scenario: a path pinned in two windows is
removed from both with no consent input. -/
theorem closeFileEverywhere_removes_path_witness :
    (∀ l ∈ DocumentManager.allLeafs
        ([("w1", some (.leaf "l1" ⟨[⟨"/x.md", true⟩, ⟨"/y.md", false⟩], some "/x.md", []⟩)),
          ("w2", some (.leaf "l2" ⟨[⟨"/x.md", true⟩], some "/x.md", []⟩))] :
          List (String × DTree)),
      (l.2.openFiles.map (·.path)).Nodup) ∧
    (∀ l ∈ DocumentManager.allLeafs
        (DocumentManager.closeFileEverywhere
          ⟨[("w1", some (.leaf "l1" ⟨[⟨"/x.md", true⟩, ⟨"/y.md", false⟩], some "/x.md", []⟩)),
            ("w2", some (.leaf "l2" ⟨[⟨"/x.md", true⟩], some "/x.md", []⟩))],
           [], [], [], false⟩ "/x.md").windows,
      ∀ e ∈ l.2.openFiles, e.path ≠ "/x.md") :=
  ⟨by decide,
   closeFileEverywhere_removes_path
    ⟨[("w1", some (.leaf "l1" ⟨[⟨"/x.md", true⟩, ⟨"/y.md", false⟩], some "/x.md", []⟩)),
      ("w2", some (.leaf "l2" ⟨[⟨"/x.md", true⟩], some "/x.md", []⟩))],
     [], [], [], false⟩ "/x.md" (by decide)⟩

/-! ## Claim C10 -/

/-- Helper: `hasMovedFile` acts on the document store as
`docsMoveStep`. -/
theorem hasMovedFile_documents (st : DMState) (oldPath newPath : String) :
    (DocumentManager.hasMovedFile st oldPath newPath).documents =
      DocumentManager.docsMoveStep st.documents oldPath newPath := by
  cases hf : st.documents.find? (fun d => d.filePath = oldPath) with
  | none => simp [DocumentManager.hasMovedFile, DocumentManager.docsMoveStep, hf]
  | some d => simp [DocumentManager.hasMovedFile, DocumentManager.docsMoveStep, hf]

/-- Helper: the `hasMovedDir` fold, projected onto the document store. -/
theorem foldl_hasMovedFile_documents (oldPath newPath : String)
    (l : List Document) :
    ∀ st : DMState,
      (l.foldl (fun acc d =>
        DocumentManager.hasMovedFile acc d.filePath
          (replaceFirst d.filePath oldPath newPath)) st).documents =
      l.foldl (fun docs d =>
        DocumentManager.docsMoveStep docs d.filePath
          (replaceFirst d.filePath oldPath newPath)) st.documents := by
  induction l with
  | nil => intro st; rfl
  | cons d ds ih =>
    intro st
    simp only [List.foldl_cons]
    rw [ih, hasMovedFile_documents]

/-- Helper: replacing a pattern that sits at the front of the string. -/
theorem replaceFirstChars_atFront (s pat rep : List Char)
    (h : pat.isPrefixOf s = true) :
    replaceFirstChars s pat rep = rep ++ s.drop pat.length := by
  cases s with
  | nil =>
    have hpat : pat = [] := by
      cases pat with
      | nil => rfl
      | cons c cs => simp [List.isPrefixOf] at h
    subst hpat
    simp [replaceFirstChars]
  | cons c cs => simp [replaceFirstChars, h]

/-- Helper: when neither of the old/new directory paths is a string
prefix of the other, rewriting one affected path never produces another
affected path. -/
theorem rewrite_ne_affected (oldPath newPath : String)
    (h1 : ¬ oldPath.data <+: newPath.data) (h2 : ¬ newPath.data <+: oldPath.data)
    (p q : String)
    (hp : strStartsWith p oldPath = true) (hq : strStartsWith q oldPath = true) :
    replaceFirst p oldPath newPath ≠ q := by
  intro heq
  have hp' : oldPath.data.isPrefixOf p.data = true := hp
  have hq' : oldPath.data.isPrefixOf q.data = true := hq
  have hdata : replaceFirstChars p.data oldPath.data newPath.data = q.data :=
    congrArg String.data heq
  rw [replaceFirstChars_atFront _ _ _ hp'] at hdata
  obtain ⟨t, ht⟩ := List.isPrefixOf_iff_prefix.mp hq'
  rw [← ht] at hdata
  have ha : newPath.data <+: newPath.data ++ p.data.drop oldPath.data.length :=
    List.prefix_append _ _
  have hb : oldPath.data <+: newPath.data ++ p.data.drop oldPath.data.length := by
    rw [hdata]; exact List.prefix_append _ _
  rcases List.prefix_or_prefix_of_prefix hb ha with hx | hx
  · exact h1 hx
  · exact h2 hx

/-- Helper: `find?` skips a block of documents with other paths. -/
theorem find?_through_block (blk : List Document) (d : Document)
    (rest : List Document)
    (hblk : ∀ x ∈ blk, x.filePath ≠ d.filePath) :
    (blk ++ d :: rest).find? (fun x => x.filePath = d.filePath) = some d := by
  induction blk with
  | nil => simp [List.find?_cons_of_pos]
  | cons b bs ih =>
    rw [List.cons_append,
      List.find?_cons_of_neg _ (by simpa using hblk b (by simp))]
    exact ih (fun x hx => hblk x (by simp [hx]))

/-- Helper: the in-place rewrite skips a block of documents with other
paths and hits the first true occurrence. -/
theorem setFilePathFirst_through_block (blk : List Document) (d : Document)
    (rest : List Document) (q : String)
    (hblk : ∀ x ∈ blk, x.filePath ≠ d.filePath) :
    DocumentManager.setFilePathFirst (blk ++ d :: rest) d.filePath q =
      blk ++ { d with filePath := q } :: rest := by
  induction blk with
  | nil => simp [DocumentManager.setFilePathFirst]
  | cons b bs ih =>
    rw [List.cons_append]
    simp only [DocumentManager.setFilePathFirst, if_neg (hblk b (by simp))]
    rw [ih (fun x hx => hblk x (by simp [hx]))]
    rfl

/-- Helper: one `docsMoveStep` through a block of unrelated documents. -/
theorem docsMoveStep_through_block (blk : List Document) (d : Document)
    (rest : List Document) (q : String)
    (hblk : ∀ x ∈ blk, x.filePath ≠ d.filePath) :
    DocumentManager.docsMoveStep (blk ++ d :: rest) d.filePath q =
      blk ++ { d with filePath := q } :: rest := by
  unfold DocumentManager.docsMoveStep
  rw [find?_through_block blk d rest hblk]
  exact setFilePathFirst_through_block blk d rest q hblk

/-- Helper: the `hasMovedDir` fold rewrites each affected document
exactly once, provided the tracked paths are pairwise distinct and
neither of the old/new paths is a prefix of the other. -/
theorem moveDir_fold (oldPath newPath : String)
    (h1 : ¬ oldPath.data <+: newPath.data)
    (h2 : ¬ newPath.data <+: oldPath.data) :
    ∀ (suf pre : List Document),
      (((pre ++ suf).map Document.filePath).Nodup) →
      (suf.filter (fun d => strStartsWith d.filePath oldPath)).foldl
          (fun docs d =>
            DocumentManager.docsMoveStep docs d.filePath
              (replaceFirst d.filePath oldPath newPath))
          (pre.map (fun d =>
            if strStartsWith d.filePath oldPath
            then { d with filePath := replaceFirst d.filePath oldPath newPath }
            else d) ++ suf) =
        pre.map (fun d =>
          if strStartsWith d.filePath oldPath
          then { d with filePath := replaceFirst d.filePath oldPath newPath }
          else d) ++
        suf.map (fun d =>
          if strStartsWith d.filePath oldPath
          then { d with filePath := replaceFirst d.filePath oldPath newPath }
          else d) := by
  intro suf
  induction suf with
  | nil => intro pre hnd; simp
  | cons d rest ih =>
    intro pre hnd
    have hnd' : (((pre ++ [d]) ++ rest).map Document.filePath).Nodup := by
      rw [List.append_assoc]
      simpa using hnd
    rw [List.map_append] at hnd
    have hdisj := List.disjoint_of_nodup_append hnd
    by_cases haff : strStartsWith d.filePath oldPath = true
    · rw [List.filter_cons_of_pos (by simpa using haff), List.foldl_cons]
      have hblk : ∀ x ∈ pre.map (fun e =>
          if strStartsWith e.filePath oldPath
          then { e with filePath := replaceFirst e.filePath oldPath newPath }
          else e), x.filePath ≠ d.filePath := by
        intro x hx
        rw [List.mem_map] at hx
        obtain ⟨e, he, rfl⟩ := hx
        by_cases hae : strStartsWith e.filePath oldPath = true
        · simp only [if_pos hae]
          exact rewrite_ne_affected oldPath newPath h1 h2 e.filePath d.filePath
            hae haff
        · simp only [if_neg hae]
          intro hcontra
          have hmem2 : e.filePath ∈ List.map Document.filePath (d :: rest) := by
            rw [hcontra]
            exact List.mem_map_of_mem Document.filePath (List.mem_cons_self d rest)
          exact hdisj (List.mem_map_of_mem Document.filePath he) hmem2
      rw [docsMoveStep_through_block _ d rest _ hblk]
      have hih := ih (pre ++ [d]) hnd'
      rw [List.map_append] at hih
      simp only [List.map_cons, List.map_nil, if_pos haff] at hih
      simp only [List.map_cons, if_pos haff]
      simpa [List.append_assoc] using hih
    · rw [List.filter_cons_of_neg (by simpa using haff)]
      have hih := ih (pre ++ [d]) hnd'
      rw [List.map_append] at hih
      simp only [List.map_cons, List.map_nil, if_neg haff] at hih
      simp only [List.map_cons, if_neg haff]
      simpa [List.append_assoc] using hih

/-- **C10 (counterexample).** The claim fails when `newPath` extends
`oldPath`: with tracked documents `/a/c` (version 1) and `/a/b/c`
(version 2), `hasMovedDir("/a", "/a/b")` does *not* rewrite each affected
document by replacing the first occurrence of `/a` in its own path.  The
first iteration moves `/a/c` to `/a/b/c`; the second iteration's `find`
for `/a/b/c` then hits that already-moved document first, rewriting it a
second time (to `/a/b/b/c`) and leaving the document that was actually at
`/a/b/c` untouched. -/
theorem hasMovedDir_shared_prefix_counterexample :
    strStartsWith "/a/c" "/a" = true ∧
    strStartsWith "/a/b/c" "/a" = true ∧
    replaceFirst "/a/c" "/a" "/a/b" = "/a/b/c" ∧
    replaceFirst "/a/b/c" "/a" "/a/b" = "/a/b/b/c" ∧
    (DocumentManager.hasMovedDir
      ⟨[], [⟨"/a/c", "", 1, 1, [], false⟩, ⟨"/a/b/c", "", 2, 2, [], false⟩],
       [], [], false⟩ "/a" "/a/b").documents =
      [⟨"/a/b/b/c", "", 1, 1, [], false⟩, ⟨"/a/b/c", "", 2, 2, [], false⟩] ∧
    (DocumentManager.hasMovedDir
      ⟨[], [⟨"/a/c", "", 1, 1, [], false⟩, ⟨"/a/b/c", "", 2, 2, [], false⟩],
       [], [], false⟩ "/a" "/a/b").documents ≠
      [⟨"/a/b/c", "", 1, 1, [], false⟩, ⟨"/a/b/b/c", "", 2, 2, [], false⟩] := by
  refine ⟨by decide, by decide, by decide, by decide, by decide, by decide⟩

/-- **C10 (amended).** `hasMovedDir(oldPath, newPath)` rewrites every
tracked document whose absolute path has `oldPath` as a string prefix —
including paths that merely share the prefix without lying inside the
directory (e.g. `/a/bc` for `oldPath` `/a/b`) — replacing the first
occurrence of `oldPath` in each path with `newPath` via `hasMovedFile`,
provided the tracked paths are pairwise distinct and neither of
`oldPath`/`newPath` is a string prefix of the other. -/
theorem hasMovedDir_rewrites_all (st : DMState) (oldPath newPath : String)
    (hnd : (st.documents.map Document.filePath).Nodup)
    (h1 : ¬ oldPath.data <+: newPath.data)
    (h2 : ¬ newPath.data <+: oldPath.data) :
    (DocumentManager.hasMovedDir st oldPath newPath).documents =
      st.documents.map (fun d =>
        if strStartsWith d.filePath oldPath
        then { d with filePath := replaceFirst d.filePath oldPath newPath }
        else d) := by
  unfold DocumentManager.hasMovedDir
  rw [foldl_hasMovedFile_documents oldPath newPath]
  have := moveDir_fold oldPath newPath h1 h2 st.documents [] (by simpa using hnd)
  simpa using this

/-- Witness for the amended C10: two documents under distinct trees moved
from `/a` to `/c`; both prefix-sharing documents are rewritten in place,
the unrelated one kept. -/
theorem hasMovedDir_rewrites_all_witness :
    (DocumentManager.hasMovedDir
      ⟨[], [⟨"/a/x", "", 1, 1, [], false⟩, ⟨"/a/bc", "", 2, 2, [], false⟩,
            ⟨"/q/y", "", 3, 3, [], false⟩], [], [], false⟩ "/a" "/c").documents =
      ([⟨"/a/x", "", 1, 1, [], false⟩, ⟨"/a/bc", "", 2, 2, [], false⟩,
        ⟨"/q/y", "", 3, 3, [], false⟩] : List Document).map (fun d =>
          if strStartsWith d.filePath "/a"
          then { d with filePath := replaceFirst d.filePath "/a" "/c" }
          else d) :=
  hasMovedDir_rewrites_all
    ⟨[], [⟨"/a/x", "", 1, 1, [], false⟩, ⟨"/a/bc", "", 2, 2, [], false⟩,
          ⟨"/q/y", "", 3, 3, [], false⟩], [], [], false⟩ "/a" "/c"
    (by decide) (by decide) (by decide)
